import Mathlib

/-!
Shallow embedding of `src/export/pdf.rs` (PDF export of laid-out documents).

Conventions of the embedding:
* Lengths (`crate::geom::Length`, f64 points) are modelled as `ℚ`; `Length::ZERO` is `0`.
* `fontdock::FaceId` (a 64-bit index) is modelled as `Nat`; `FaceId::MAX` is `2^64 - 1`.
* `ResourceId` is modelled as `Nat`.
* The opaque external `pdf_writer::PdfWriter` collaborator is modelled by recording the
  typed objects and content-stream instructions handed to it, in the order the code
  writes them; the final byte serialisation is outside the embedded core.
-/

/-- `fontdock::FaceId::MAX`, the sentinel used for "no active face"
(`pdf.rs` line 138). The id wraps a 64-bit integer. -/
def faceIdMax : Nat := 2 ^ 64 - 1

/-- `ShapedText`: a positioned text run (`LayoutElement::Text` payload). -/
structure Shaped where
  face : Nat
  font_size : ℚ
  glyphs : List Nat
  deriving DecidableEq

/-- `Image` layout element payload: a resource id and a placed size. -/
structure ImageElem where
  res : Nat
  width : ℚ
  height : ℚ
  deriving DecidableEq

/-- `crate::layout::LayoutElement`, the closed element sum type. -/
inductive LayoutElement where
  | text (sh : Shaped)
  | image (im : ImageElem)
  deriving DecidableEq

/-- A position on a page (`Point` with x, y in points). -/
structure Pos where
  x : ℚ
  y : ℚ
  deriving DecidableEq

/-- `crate::layout::BoxLayout`: page size plus the ordered element sequence. -/
structure BoxLayout where
  width : ℚ
  height : ℚ
  elements : List (Pos × LayoutElement)
  deriving DecidableEq

/-- Modelled from the spec: `ShapedText::encode_glyphs_be` lives in `crate::layout`
(outside `src/`); the spec fixes it as the big-endian 16-bit-per-glyph encoding. -/
def encodeGlyphsBe (glyphs : List Nat) : List Nat :=
  glyphs.flatMap (fun g => [g / 256 % 256, g % 256])

/-- Modelled from the spec: the external image-buffer collaborator (`DynamicImage`),
exposing exactly the queries `write_images` and the scanning pass use:
pixel dimensions, alpha presence, RGB bytes and per-pixel alpha samples. -/
structure ImageBuf where
  width : Nat
  height : Nat
  hasAlpha : Bool
  rgb : List Nat
  alpha : List Nat

/-- Modelled from the spec: the external face collaborator (`ttf_parser::Face` via
`fontdock`), exposing exactly the queries `write_fonts` makes. -/
structure Face where
  postScriptName : Option String
  unitsPerEm : Option Nat
  monospaced : Bool
  italic : Bool
  italicAngle : Option ℚ
  typographicAscender : Option Int
  typographicDescender : Option Int
  capitalHeight : Option Int
  weightNumber : Nat
  bboxXMin : Int
  bboxYMin : Int
  bboxXMax : Int
  bboxYMax : Int
  numberOfGlyphs : Nat
  glyphHorAdvance : Nat → Option Nat
  characterMappingSubtables : List (List Nat)
  glyphIndex : Nat → Option Nat
  data : List Nat

/-- Modelled from the spec: the preloaded resource environment (`crate::env::Env`),
keyed by opaque face/image identifiers. Resources are assumed preloaded (a missing
resource is the fatal `MissingResource` failure, outside the modelled domain). -/
structure Env where
  resources : Nat → ImageBuf
  fonts : Nat → Face

/-- `Remapper<Index>` (`pdf.rs` lines 406-448). The Rust struct keeps a
`to_pdf: HashMap<Index, usize>` alongside `to_layout: Vec<Index>`; the map's
content is determined by the vector (each key maps to its first-insertion
position, i.e. its index in `to_layout`), so the embedding keeps the vector
and derives the map by position lookup. -/
structure Remapper (α : Type) where
  to_layout : List α
  deriving DecidableEq

/-- `Remapper::new`. -/
def Remapper.new {α : Type} : Remapper α := ⟨[]⟩

/-- `Remapper::len`. -/
def Remapper.len {α : Type} (r : Remapper α) : Nat := r.to_layout.length

/-- `Remapper::insert`: registers a key if unseen (idempotent). -/
def Remapper.insert {α : Type} [DecidableEq α] (r : Remapper α) (i : α) : Remapper α :=
  if i ∈ r.to_layout then r else ⟨r.to_layout ++ [i]⟩

/-- `Remapper::map`: the dense pdf index of an inserted key (its first-insertion
position in `to_layout`; calling it on a never-inserted key is the
`UnknownResource` panic, outside the modelled domain). -/
def Remapper.map {α : Type} [DecidableEq α] (r : Remapper α) (i : α) : Nat :=
  r.to_layout.indexOf i

/-- `Remapper::pdf_indices`: `0 .. self.to_pdf.len()`. -/
def Remapper.pdf_indices {α : Type} (r : Remapper α) : List Nat :=
  List.range r.to_layout.length

/-- `Remapper::layout_indices`: iteration over `to_layout` in order. -/
def Remapper.layout_indices {α : Type} (r : Remapper α) : List α :=
  r.to_layout

/-- Building a remapper by a sequence of insertions. -/
def Remapper.ofList {α : Type} [DecidableEq α] (ks : List α) : Remapper α :=
  ks.foldl Remapper.insert Remapper.new

/-- The five ids of one embedded font (`FontRefs`, `pdf.rs` lines 343-349). -/
structure FontRefs where
  type0_font : Nat
  cid_font : Nat
  font_descriptor : Nat
  cmap : Nat
  data : Nat
  deriving DecidableEq

/-- `Refs` (`pdf.rs` lines 332-341): the precomputed indirect-reference offsets. -/
structure Refs where
  catalog : Nat
  page_tree : Nat
  pages_start : Nat
  contents_start : Nat
  fonts_start : Nat
  images_start : Nat
  alpha_masks_start : Nat
  end_ : Nat
  deriving DecidableEq

/-- `Refs::OBJECTS_PER_FONT`. -/
def Refs.OBJECTS_PER_FONT : Nat := 5

/-- `Refs::new` (`pdf.rs` lines 354-374). -/
def Refs.new (layouts fonts images alpha_masks : Nat) : Refs :=
  let catalog := 1
  let page_tree := catalog + 1
  let pages_start := page_tree + 1
  let contents_start := pages_start + layouts
  let fonts_start := contents_start + layouts
  let images_start := fonts_start + Refs.OBJECTS_PER_FONT * fonts
  let alpha_masks_start := images_start + images
  let end_ := alpha_masks_start + alpha_masks
  { catalog := catalog, page_tree := page_tree, pages_start := pages_start,
    contents_start := contents_start, fonts_start := fonts_start,
    images_start := images_start, alpha_masks_start := alpha_masks_start,
    end_ := end_ }

/-- `Refs::pages`: the range `pages_start .. contents_start` as a list. -/
def Refs.pages (r : Refs) : List Nat :=
  List.range' r.pages_start (r.contents_start - r.pages_start)

/-- `Refs::contents` (`pdf.rs` line 381): the range `contents_start .. images_start`
as a list (faithful to the source, which uses `images_start` as the upper bound). -/
def Refs.contents (r : Refs) : List Nat :=
  List.range' r.contents_start (r.images_start - r.contents_start)

/-- `Refs::fonts`: `(fonts_start .. images_start).step_by(5)`, each step producing
one five-id group. `step_by` on a range of length `n` yields `⌈n/5⌉` items. -/
def Refs.fonts (r : Refs) : List FontRefs :=
  (List.range ((r.images_start - r.fonts_start + 4) / 5)).map (fun k =>
    let id := r.fonts_start + 5 * k
    { type0_font := id, cid_font := id + 1, font_descriptor := id + 2,
      cmap := id + 3, data := id + 4 })

/-- `Refs::images` (`pdf.rs` line 397): the range `images_start .. end` as a list
(faithful to the source, which uses `end` as the upper bound). -/
def Refs.images (r : Refs) : List Nat :=
  List.range' r.images_start (r.end_ - r.images_start)

/-- `Refs::alpha_mask`. -/
def Refs.alpha_mask (r : Refs) (i : Nat) : Nat :=
  r.alpha_masks_start + i

/-- One content-stream instruction handed to `pdf_writer::Content`. -/
inductive Instr where
  | font (nameIdx : Nat) (size : ℚ)
  | matrix (a b c d e f : ℚ)
  | showText (bytes : List Nat)
  | saveState
  | restoreState
  | xObject (nameIdx : Nat)
  deriving DecidableEq

/-- The text pass of `write_page` (`pdf.rs` lines 141-158): one `content.text()`
block over the elements, skipping images, remembering the active `(face, size)`
to suppress redundant font-selection instructions. -/
def writeTextsAux (fonts : Remapper Nat) (pageH : ℚ) :
    Nat → ℚ → List (Pos × LayoutElement) → List Instr
  | _, _, [] => []
  | face, size, (pos, LayoutElement.text sh) :: rest =>
    if sh.face ≠ face ∨ sh.font_size ≠ size then
      Instr.font (fonts.map sh.face) sh.font_size ::
      Instr.matrix 1 0 0 1 pos.x (pageH - pos.y - sh.font_size) ::
      Instr.showText (encodeGlyphsBe sh.glyphs) ::
      writeTextsAux fonts pageH sh.face sh.font_size rest
    else
      Instr.matrix 1 0 0 1 pos.x (pageH - pos.y - size) ::
      Instr.showText (encodeGlyphsBe sh.glyphs) ::
      writeTextsAux fonts pageH face size rest
  | face, size, (_, LayoutElement.image _) :: rest =>
    writeTextsAux fonts pageH face size rest

/-- The image pass of `write_page` (`pdf.rs` lines 162-176): a second loop over
the same elements, emitting only image placement brackets. -/
def writeImagesAux (images : Remapper Nat) (pageH : ℚ) :
    List (Pos × LayoutElement) → List Instr
  | [] => []
  | (pos, LayoutElement.image img) :: rest =>
    Instr.saveState ::
    Instr.matrix img.width 0 0 img.height pos.x (pageH - pos.y - img.height) ::
    Instr.xObject (images.map img.res) ::
    Instr.restoreState ::
    writeImagesAux images pageH rest
  | (_, LayoutElement.text _) :: rest =>
    writeImagesAux images pageH rest

/-- `PdfExporter::write_page` (`pdf.rs` lines 133-179): the full instruction
sequence of one page's content stream — the text block first, then the image
loop, on the same `content`. -/
def writePage (fonts images : Remapper Nat) (page : BoxLayout) : List Instr :=
  writeTextsAux fonts page.height faceIdMax 0 page.elements ++
    writeImagesAux images page.height page.elements

/-- The scanning state accumulated by `PdfExporter::new`: the two remappers and
the alpha-mask count. -/
structure ScanState where
  fonts : Remapper Nat
  images : Remapper Nat
  alpha_masks : Nat

/-- One step of the scanning pass (`pdf.rs` lines 48-61). Note the source
increments `alpha_masks` on every alpha-bearing image element occurrence,
before the (idempotent) `images.insert`. -/
def scanElement (env : Env) (s : ScanState) : Pos × LayoutElement → ScanState
  | (_, LayoutElement.text sh) => { s with fonts := s.fonts.insert sh.face }
  | (_, LayoutElement.image img) =>
    let buf := env.resources img.res
    let s' := if buf.hasAlpha then { s with alpha_masks := s.alpha_masks + 1 } else s
    { s' with images := s'.images.insert img.res }

/-- The full scanning pass of `PdfExporter::new` over all layouts. -/
def scan (env : Env) (layouts : List BoxLayout) : ScanState :=
  layouts.foldl (fun s l => l.elements.foldl (scanElement env) s)
    ⟨Remapper.new, Remapper.new, 0⟩

/-- The exporter state built by `PdfExporter::new` (`pdf.rs` lines 40-73). -/
structure PdfExporterState where
  refs : Refs
  fonts : Remapper Nat
  images : Remapper Nat

/-- `PdfExporter::new`: scan, then allocate references from the counts. -/
def PdfExporter.new (layouts : List BoxLayout) (env : Env) : PdfExporterState :=
  let s := scan env layouts
  { refs := Refs.new layouts.length s.fonts.len s.images.len s.alpha_masks,
    fonts := s.fonts, images := s.images }

/-- Rust's `f32::round`: round half away from zero, here over `ℚ` into `ℤ`. -/
def roundTiesAway (q : ℚ) : ℤ :=
  if 0 ≤ q then ⌊q + 1 / 2⌋ else -⌊-q + 1 / 2⌋

/-- The font-unit conversion of `write_fonts` (`pdf.rs` lines 210-214):
`em_per_unit = 1 / units_per_em.unwrap_or(1000)`,
`convert(v) = round(1000 * em_per_unit * v)`. -/
def convert (unitsPerEm : Option Nat) (v : ℚ) : ℤ :=
  let em_per_unit : ℚ := 1 / (unitsPerEm.getD 1000 : ℚ)
  roundTiesAway (1000 * em_per_unit * v)

/-- `convert_i16`: the conversion applied to a signed font-space metric. -/
def convert_i16 (unitsPerEm : Option Nat) (v : Int) : ℤ :=
  convert unitsPerEm (v : ℚ)

/-- `convert_u16`: the conversion applied to an unsigned font-space metric. -/
def convert_u16 (unitsPerEm : Option Nat) (v : Nat) : ℤ :=
  convert unitsPerEm (v : ℚ)

/-- Whether a prefix of characters matches (used for substring search). -/
def charPrefixEq : List Char → List Char → Bool
  | [], _ => true
  | _ :: _, [] => false
  | a :: as, b :: bs => a = b && charPrefixEq as bs

/-- Rust `str::contains` for a literal needle: some suffix of the haystack
starts with the needle. -/
def strContains (hay needle : String) : Bool :=
  (List.range (hay.toList.length + 1)).any (fun i =>
    charPrefixEq needle.toList (hay.toList.drop i))

/-- `char::from_u32(n).is_some()`: codepoint validity (not a surrogate, below
`0x110000`). -/
def charValid (n : Nat) : Bool :=
  (n < 55296 || 57344 ≤ n) && n < 1114112

/-- The glyph-to-codepoint pairs collected by the to-unicode loop of
`write_fonts` (`pdf.rs` lines 268-281): for every subtable, for every covered
codepoint, record `(glyph, codepoint)` when the codepoint is a valid char and
the face maps it to a glyph. -/
def cmapPairsOf (face : Face) : List (Nat × Nat) :=
  face.characterMappingSubtables.flatMap (fun sub =>
    sub.filterMap (fun n =>
      if charValid n then (face.glyphIndex n).map (fun g => (g, n)) else none))

/-- One typed object handed to the external `pdf_writer::PdfWriter`. -/
inductive Obj where
  | catalog (pages : Nat)
  | pageTree (kids : List Nat) (fontRes : List (Nat × Nat)) (imageRes : List (Nat × Nat))
  | page (parent : Nat) (mediaBox : ℚ × ℚ × ℚ × ℚ) (contents : Nat)
  | stream (id : Nat) (instrs : List Instr)
  | type0Font (id : Nat) (baseFont : String) (descendant : Nat) (toUnicode : Nat)
  | cidFont (id : Nat) (baseFont : String) (descriptor : Nat) (widths : List Int)
  | fontDescriptor (id : Nat) (baseFont : String)
      (serif fixedPitch italic symbolic smallCap : Bool)
      (bbox : Int × Int × Int × Int) (italicAngle : ℚ)
      (ascent descent capHeight : Int) (stemV : ℚ) (fontFile : Nat)
  | cmapObj (id : Nat) (pairs : List (Nat × Nat))
  | fontData (id : Nat) (bytes : List Nat)
  | imageObj (id : Nat) (width height : Nat) (gray : Bool) (smask : Option Nat)
      (bytes : List Nat)
  deriving DecidableEq

/-- `PdfExporter::write_structure` (`pdf.rs` lines 83-125): the catalog, the
page tree with its kids and shared resource dictionaries (`F<i>` and `Im<i>`
entries, `i` the remapper pdf index), then one page object per layout. The
`zip`s truncate exactly as the Rust iterator `zip` does. -/
def write_structure (layouts : List BoxLayout) (refs : Refs)
    (fonts images : Remapper Nat) : List Obj :=
  Obj.catalog refs.page_tree ::
  Obj.pageTree refs.pages
    ((refs.fonts.zip fonts.pdf_indices).map (fun p => (p.2, p.1.type0_font)))
    ((refs.images.zip images.pdf_indices).map (fun p => (p.2, p.1))) ::
  ((refs.pages.zip refs.contents).zip layouts).map (fun p =>
    Obj.page refs.page_tree (0, 0, p.2.width, p.2.height) p.1.2)

/-- `PdfExporter::write_pages` (`pdf.rs` lines 127-131): one content stream per
layout, at the ids of `refs.contents()` (zip-truncated to the layouts). -/
def write_pages (layouts : List BoxLayout) (refs : Refs)
    (fonts images : Remapper Nat) : List Obj :=
  (refs.contents.zip layouts).map (fun p =>
    Obj.stream p.1 (writePage fonts images p.2))

/-- `PdfExporter::write_fonts` (`pdf.rs` lines 181-288): per distinct font in
remapper order, the five objects of its group. -/
def write_fonts (env : Env) (refs : Refs) (fonts : Remapper Nat) : List Obj :=
  (refs.fonts.zip fonts.layout_indices).flatMap (fun p =>
    let frefs := p.1
    let face := env.fonts p.2
    let name := face.postScriptName.getD "unknown"
    let base_font := "ABCDEF+" ++ name
    let upem := face.unitsPerEm
    let bbox := (convert_i16 upem face.bboxXMin, convert_i16 upem face.bboxYMin,
      convert_i16 upem face.bboxXMax, convert_i16 upem face.bboxYMax)
    let italic_angle := face.italicAngle.getD 0
    let ascender := convert_i16 upem (face.typographicAscender.getD 0)
    let descender := convert_i16 upem (face.typographicDescender.getD 0)
    let cap_height := face.capitalHeight.map (convert_i16 upem)
    let stem_v : ℚ := 10 + 244 / 1000 * ((face.weightNumber : ℚ) - 50)
    let widths := (List.range face.numberOfGlyphs).map (fun g =>
      convert_u16 upem ((face.glyphHorAdvance g).getD 0))
    [Obj.type0Font frefs.type0_font base_font frefs.cid_font frefs.cmap,
     Obj.cidFont frefs.cid_font base_font frefs.font_descriptor widths,
     Obj.fontDescriptor frefs.font_descriptor base_font
       (strContains name "Serif") face.monospaced face.italic true true
       bbox italic_angle ascender descender (cap_height.getD ascender) stem_v
       frefs.data,
     Obj.cmapObj frefs.cmap (cmapPairsOf face),
     Obj.fontData frefs.data face.data])

/-- The loop body of `PdfExporter::write_images` (`pdf.rs` lines 290-326):
iterate the `(allocated id, resource)` pairs with the running `mask` counter;
an alpha-bearing image additionally emits a grayscale mask at the next
alpha-mask id and links it as the color object's soft mask. -/
def writeImagesLoop (env : Env) (refs : Refs) :
    Nat → List (Nat × Nat) → List Obj
  | _, [] => []
  | mask, (id, res) :: rest =>
    let buf := env.resources res
    if buf.hasAlpha then
      let mask_id := refs.alpha_mask mask
      Obj.imageObj id buf.width buf.height false (some mask_id) buf.rgb ::
      Obj.imageObj mask_id buf.width buf.height true none buf.alpha ::
      writeImagesLoop env refs (mask + 1) rest
    else
      Obj.imageObj id buf.width buf.height false none buf.rgb ::
      writeImagesLoop env refs mask rest

/-- `PdfExporter::write_images`: the loop started with `mask = 0` over
`refs.images().zip(self.images.layout_indices())`. -/
def write_images (env : Env) (refs : Refs) (images : Remapper Nat) : List Obj :=
  writeImagesLoop env refs 0 (refs.images.zip images.layout_indices)

/-- `export` / `PdfExporter::write` (`pdf.rs` lines 26-28 and 75-81): the full
object trace handed to the document writer, in write order. The final byte
serialisation (`writer.finish`) is the out-of-scope external collaborator. -/
def export_ (layouts : List BoxLayout) (env : Env) : List Obj :=
  let st := PdfExporter.new layouts env
  write_structure layouts st.refs st.fonts st.images ++
    write_pages layouts st.refs st.fonts st.images ++
    write_fonts env st.refs st.fonts ++
    write_images env st.refs st.images

/-- Number of font-selection instructions in a content stream. -/
def countFontSel (l : List Instr) : Nat :=
  l.countP (fun i => match i with | Instr.font _ _ => true | _ => false)

/-- The glyph-show payloads of a content stream, in emission order. -/
def showsOf (l : List Instr) : List (List Nat) :=
  l.filterMap (fun i => match i with | Instr.showText b => some b | _ => none)

/-- The x-object (image placement) name indices of a content stream, in order. -/
def xObjectsOf (l : List Instr) : List Nat :=
  l.filterMap (fun i => match i with | Instr.xObject n => some n | _ => none)

/-- The text elements of a page, in element order. -/
def textsOf (els : List (Pos × LayoutElement)) : List Shaped :=
  els.filterMap (fun pe =>
    match pe.2 with | LayoutElement.text sh => some sh | LayoutElement.image _ => none)

/-- The image elements of a page with their positions, in element order. -/
def imageElemsOf (els : List (Pos × LayoutElement)) : List (Pos × ImageElem) :=
  els.filterMap (fun pe =>
    match pe.2 with | LayoutElement.image im => some (pe.1, im) | LayoutElement.text _ => none)

/-- Deduplication keeping the first occurrence of each key, in order. -/
def firstDedup {α : Type} [DecidableEq α] : List α → List α
  | [] => []
  | a :: l => a :: firstDedup (l.filter (fun x => x ≠ a))
  termination_by l => l.length
  decreasing_by
    simp only [List.length_cons]
    exact Nat.lt_succ_of_le (List.length_filter_le _ _)

/-- Whether an element is an image whose buffer reports an alpha channel. -/
def isAlphaElem (env : Env) (pe : Pos × LayoutElement) : Bool :=
  match pe.2 with
  | LayoutElement.image im => (env.resources im.res).hasAlpha
  | LayoutElement.text _ => false

/-- The number of image element occurrences whose image reports alpha,
over all pages. -/
def countAlphaOccurrences (env : Env) (layouts : List BoxLayout) : Nat :=
  (layouts.flatMap (fun l => l.elements)).countP (isAlphaElem env)

/-- The objects `write_images` owes one `(allocated id, resource)` pair when the
pair's alpha index (count of alpha-bearing images strictly before it) is `k`:
one color object, plus — iff the buffer reports alpha — a grayscale mask at
`alpha_mask k`, linked as the color object's soft mask. -/
def imgSpec (env : Env) (refs : Refs) (k : Nat) (p : Nat × Nat) : List Obj :=
  let buf := env.resources p.2
  if buf.hasAlpha then
    [Obj.imageObj p.1 buf.width buf.height false (some (refs.alpha_mask k)) buf.rgb,
     Obj.imageObj (refs.alpha_mask k) buf.width buf.height true none buf.alpha]
  else
    [Obj.imageObj p.1 buf.width buf.height false none buf.rgb]

/-- For each position in the pair list, the number of alpha-bearing images
strictly before it. -/
def alphaPrefixCounts (env : Env) : List (Nat × Nat) → List Nat
  | [] => []
  | p :: rest => 0 :: (alphaPrefixCounts env rest).map
      (· + if (env.resources p.2).hasAlpha then 1 else 0)

/-- A face with no reported optional metrics (fixture). -/
def defaultFace : Face :=
  { postScriptName := none, unitsPerEm := none, monospaced := false, italic := false,
    italicAngle := none, typographicAscender := none, typographicDescender := none,
    capitalHeight := none, weightNumber := 400, bboxXMin := 0, bboxYMin := 0,
    bboxXMax := 0, bboxYMax := 0, numberOfGlyphs := 0, glyphHorAdvance := fun _ => none,
    characterMappingSubtables := [], glyphIndex := fun _ => none, data := [] }

/-- An environment where every image resource reports an alpha channel (fixture). -/
def env0 : Env :=
  { resources := fun _ => ⟨1, 1, true, [7, 7, 7], [255]⟩, fonts := fun _ => defaultFace }

/-- One page holding the same alpha-bearing image resource twice (fixture). -/
def dupAlphaLayouts : List BoxLayout :=
  [⟨100, 100, [(⟨0, 0⟩, LayoutElement.image ⟨7, 10, 10⟩),
               (⟨0, 0⟩, LayoutElement.image ⟨7, 10, 10⟩)]⟩]

/-- A page whose single text element carries the sentinel pair
`(FaceId::MAX, 0)` (fixture). -/
def pageSentinel : BoxLayout :=
  ⟨100, 100, [(⟨5, 5⟩, LayoutElement.text ⟨faceIdMax, 0, [3]⟩)]⟩

/-- A page with an image element followed by a text element (fixture). -/
def pageImgText : BoxLayout :=
  ⟨100, 100, [(⟨0, 0⟩, LayoutElement.image ⟨7, 10, 10⟩),
              (⟨0, 0⟩, LayoutElement.text ⟨0, 5, [1]⟩)]⟩

/-- A page with two consecutive text elements both carrying the sentinel pair
`(FaceId::MAX, 0)` (fixture). -/
def pageTwoSentinels : BoxLayout :=
  ⟨100, 100, [(⟨0, 0⟩, LayoutElement.text ⟨faceIdMax, 0, [1]⟩),
              (⟨0, 0⟩, LayoutElement.text ⟨faceIdMax, 0, [2]⟩)]⟩

/-- Scenario A: a 200 by 200 page, one text element at (10, 10), face size 12
(fixture). -/
def pageScenarioA : BoxLayout :=
  ⟨200, 200, [(⟨10, 10⟩, LayoutElement.text ⟨0, 12, [1]⟩)]⟩

/-- Scenario B environment: resource 2 reports alpha, the others are opaque
(fixture). -/
def envB : Env :=
  { resources := fun r =>
      if r = 2 then ⟨1, 1, true, [1, 2, 3], [9]⟩ else ⟨1, 1, false, [4, 5, 6], []⟩,
    fonts := fun _ => defaultFace }

/-- Scenario B: one page with two images, the first opaque (resource 1) and the
second alpha-bearing (resource 2) (fixture). -/
def layoutsB : List BoxLayout :=
  [⟨100, 100, [(⟨0, 0⟩, LayoutElement.image ⟨1, 10, 10⟩),
               (⟨0, 0⟩, LayoutElement.image ⟨2, 10, 10⟩)]⟩]

/-- C1: code-bug evaluation at counts `(pages, fonts, images, alphaMasks) = (1, 1, 1, 1)`.
The allocator's accessors do not produce pairwise disjoint sequences: `contents()`
runs up to `images_start` (through the whole font block, so id 5 is both a content
stream id and the first font group's id), and `images()` runs up to `end` (so id 11
is both an image id and `alpha_mask(0)`). The font group itself is 5 consecutive
ids, as claimed. -/
theorem c1_refs_ranges_overlap :
    (Refs.new 1 1 1 1).contents = [4, 5, 6, 7, 8, 9] ∧
    (Refs.new 1 1 1 1).fonts = [⟨5, 6, 7, 8, 9⟩] ∧
    5 ∈ (Refs.new 1 1 1 1).contents ∧
    (Refs.new 1 1 1 1).images = [10, 11] ∧
    (Refs.new 1 1 1 1).alpha_mask 0 = 11 ∧
    11 ∈ (Refs.new 1 1 1 1).images := by
  refine ⟨by decide, by decide, by decide, by decide, by decide, by decide⟩

/-- C10: the "no active font" sentinel is the concrete pair `(FaceId::MAX, 0)`:
a page whose first text element carries exactly that face id and font size
emits no font-selection instruction before its glyph-show instruction. -/
theorem c10_sentinel_no_font_selection :
    faceIdMax = 2 ^ 64 - 1 ∧
    writePage Remapper.new Remapper.new pageSentinel =
      [Instr.matrix 1 0 0 1 5 95, Instr.showText [0, 3]] := by
  refine ⟨rfl, ?_⟩
  norm_num [writePage, writeTextsAux, writeImagesAux, pageSentinel, faceIdMax, encodeGlyphsBe]

/-- C9: the export pipeline is deterministic — two runs on equal inputs produce
equal object traces. All iteration in the embedded pipeline is over
insertion-ordered structures, never over a hash map's native order. -/
theorem c9_export_deterministic (l₁ l₂ : List BoxLayout) (e₁ e₂ : Env)
    (hl : l₁ = l₂) (he : e₁ = e₂) : export_ l₁ e₁ = export_ l₂ e₂ := by
  subst hl; subst he; rfl

/-- Witness for C9 at a concrete input. -/
theorem c9_export_deterministic_witness :
    export_ layoutsB envB = export_ layoutsB envB :=
  c9_export_deterministic layoutsB layoutsB envB envB rfl rfl

/-- Unfolding: a show instruction contributes its payload to `showsOf`. -/
theorem showsOf_cons (i : Instr) (l : List Instr) :
    showsOf (i :: l) =
      (match i with | Instr.showText b => [b] | _ => []) ++ showsOf l := by
  cases i <;> rfl

/-- Unfolding: a text element contributes its shaped run to `textsOf`. -/
theorem textsOf_cons (pe : Pos × LayoutElement) (els : List (Pos × LayoutElement)) :
    textsOf (pe :: els) =
      (match pe.2 with | LayoutElement.text sh => [sh] | _ => []) ++ textsOf els := by
  obtain ⟨pos, el⟩ := pe; cases el <;> rfl

/-- Unfolding: an image element contributes its positioned image to `imageElemsOf`. -/
theorem imageElemsOf_cons (pe : Pos × LayoutElement) (els : List (Pos × LayoutElement)) :
    imageElemsOf (pe :: els) =
      (match pe.2 with | LayoutElement.image im => [(pe.1, im)] | _ => []) ++
        imageElemsOf els := by
  obtain ⟨pos, el⟩ := pe; cases el <;> rfl

/-- The glyph-show payloads of the text pass are the page's text elements'
encoded glyphs, in element order, whatever the starting active-font state. -/
theorem showsOf_writeTextsAux (f : Remapper Nat) (H : ℚ) :
    ∀ (els : List (Pos × LayoutElement)) (face : Nat) (size : ℚ),
      showsOf (writeTextsAux f H face size els) =
        (textsOf els).map (fun sh => encodeGlyphsBe sh.glyphs) := by
  intro els
  induction els with
  | nil => intro face size; rfl
  | cons pe rest ih =>
    intro face size
    obtain ⟨pos, el⟩ := pe
    cases el with
    | text sh =>
      by_cases h : sh.face ≠ face ∨ sh.font_size ≠ size
      · simp [writeTextsAux, if_pos h, showsOf_cons, textsOf_cons, ih]
      · simp [writeTextsAux, if_neg h, showsOf_cons, textsOf_cons, ih]
    | image im =>
      simp [writeTextsAux, showsOf_cons, textsOf_cons, ih]

/-- The image pass is exactly one save/transform/draw/restore bracket per image
element, in element order. -/
theorem writeImagesAux_eq_flatMap (i : Remapper Nat) (H : ℚ) :
    ∀ els, writeImagesAux i H els =
      (imageElemsOf els).flatMap (fun q =>
        [Instr.saveState,
         Instr.matrix q.2.width 0 0 q.2.height q.1.x (H - q.1.y - q.2.height),
         Instr.xObject (i.map q.2.res), Instr.restoreState]) := by
  intro els
  induction els with
  | nil => rfl
  | cons pe rest ih =>
    obtain ⟨pos, el⟩ := pe
    cases el with
    | text sh => simp [writeImagesAux, imageElemsOf_cons, ih]
    | image im => simp [writeImagesAux, imageElemsOf_cons, ih]

/-- C2: counterexample. On a page whose element sequence is an image followed by
a text, the content stream places the text's show instruction (index 2) before
the image's draw instruction (index 5): the later element is *not* painted over
the earlier one — the image paints over the text. -/
theorem c2_paint_order_counterexample :
    Instr.showText [0, 1] ∈ writePage (Remapper.ofList [0]) (Remapper.ofList [7]) pageImgText ∧
    Instr.xObject 0 ∈ writePage (Remapper.ofList [0]) (Remapper.ofList [7]) pageImgText ∧
    (writePage (Remapper.ofList [0]) (Remapper.ofList [7]) pageImgText).indexOf
        (Instr.showText [0, 1]) <
      (writePage (Remapper.ofList [0]) (Remapper.ofList [7]) pageImgText).indexOf
        (Instr.xObject 0) := by
  have h : writePage (Remapper.ofList [0]) (Remapper.ofList [7]) pageImgText =
      [Instr.font 0 5, Instr.matrix 1 0 0 1 0 95, Instr.showText [0, 1],
       Instr.saveState, Instr.matrix 10 0 0 10 0 90, Instr.xObject 0,
       Instr.restoreState] := by
    norm_num [writePage, writeTextsAux, writeImagesAux, pageImgText, faceIdMax,
      encodeGlyphsBe, Remapper.ofList, Remapper.map, Remapper.new, Remapper.insert]
  rw [h]
  refine ⟨by decide, by decide, by decide⟩

/-- C2 as amended: the content stream is the text pass followed by the image
pass; within the text pass the glyph-show payloads follow the text elements'
order exactly, and the image pass is one bracket per image element in element
order. So later text paints over earlier text and later images over earlier
images, but every image paints over every text, regardless of interleaving. -/
theorem c2_paint_order_amended (f i : Remapper Nat) (p : BoxLayout) :
    writePage f i p =
      writeTextsAux f p.height faceIdMax 0 p.elements ++
        writeImagesAux i p.height p.elements ∧
    showsOf (writeTextsAux f p.height faceIdMax 0 p.elements) =
      (textsOf p.elements).map (fun sh => encodeGlyphsBe sh.glyphs) ∧
    writeImagesAux i p.height p.elements =
      (imageElemsOf p.elements).flatMap (fun q =>
        [Instr.saveState,
         Instr.matrix q.2.width 0 0 q.2.height q.1.x (p.height - q.1.y - q.2.height),
         Instr.xObject (i.map q.2.res), Instr.restoreState]) :=
  ⟨rfl, showsOf_writeTextsAux f p.height p.elements faceIdMax 0,
    writeImagesAux_eq_flatMap i p.height p.elements⟩

/-- The element fold of the scanning pass adds one to the alpha-mask count for
every alpha-bearing image element occurrence. -/
theorem foldl_scanElement_alpha (env : Env) :
    ∀ (els : List (Pos × LayoutElement)) (s : ScanState),
      (els.foldl (scanElement env) s).alpha_masks =
        s.alpha_masks + els.countP (isAlphaElem env) := by
  intro els
  induction els with
  | nil => intro s; simp
  | cons pe rest ih =>
    intro s
    obtain ⟨pos, el⟩ := pe
    cases el with
    | text sh =>
      simp [scanElement, ih, isAlphaElem, List.countP_cons]
    | image im =>
      by_cases h : (env.resources im.res).hasAlpha
      · simp [scanElement, h, ih, isAlphaElem, List.countP_cons]
        omega
      · simp [scanElement, h, ih, isAlphaElem, List.countP_cons]

/-- The scanning pass counts alpha-bearing image element occurrences over all
pages. -/
theorem scan_alpha_masks (env : Env) (layouts : List BoxLayout) :
    (scan env layouts).alpha_masks = countAlphaOccurrences env layouts := by
  suffices h : ∀ (ls : List BoxLayout) (s : ScanState),
      (ls.foldl (fun s l => l.elements.foldl (scanElement env) s) s).alpha_masks =
        s.alpha_masks + (ls.flatMap (fun l => l.elements)).countP (isAlphaElem env) by
    simpa [scan, countAlphaOccurrences] using h layouts ⟨Remapper.new, Remapper.new, 0⟩
  intro ls
  induction ls with
  | nil => intro s; simp
  | cons l rest ih =>
    intro s
    simp [ih, foldl_scanElement_alpha, Nat.add_assoc]

/-- C3: counterexample. A single page holding the same alpha-bearing image
resource in two elements: the scanning pass allocates 2 alpha-mask ids, while
only 1 distinct image has an alpha channel. -/
theorem c3_alpha_count_counterexample :
    (scan env0 dupAlphaLayouts).alpha_masks = 2 ∧
    ((scan env0 dupAlphaLayouts).images.to_layout.filter
      (fun r => (env0.resources r).hasAlpha)).length = 1 :=
  ⟨rfl, rfl⟩

/-- C3 as amended: the size of the allocator's alpha-mask range equals the
number of image element *occurrences* whose image reports an alpha channel —
it does grow when the same alpha-bearing image appears in several elements. -/
theorem c3_alpha_count_amended (env : Env) (layouts : List BoxLayout) :
    (scan env layouts).alpha_masks = countAlphaOccurrences env layouts ∧
    (PdfExporter.new layouts env).refs.end_ -
        (PdfExporter.new layouts env).refs.alpha_masks_start =
      countAlphaOccurrences env layouts := by
  refine ⟨scan_alpha_masks env layouts, ?_⟩
  simp [PdfExporter.new, Refs.new, scan_alpha_masks env layouts]

/-- Unfolding: counting font-selection instructions through a cons. -/
theorem countFontSel_cons (i : Instr) (l : List Instr) :
    countFontSel (i :: l) =
      countFontSel l + (match i with | Instr.font _ _ => 1 | _ => 0) := by
  cases i <;> simp [countFontSel, List.countP_cons]

/-- Counting font-selection instructions through an append. -/
theorem countFontSel_append (l₁ l₂ : List Instr) :
    countFontSel (l₁ ++ l₂) = countFontSel l₁ + countFontSel l₂ :=
  List.countP_append _ _ _

/-- A run of repetitions of one text element starting from an active state that
already equals its `(face, size)` emits no font-selection instruction at all. -/
theorem countFontSel_replicate_same (f : Remapper Nat) (H : ℚ) (t : Shaped) (q : Pos) :
    ∀ n, countFontSel
      (writeTextsAux f H t.face t.font_size (List.replicate n (q, LayoutElement.text t))) = 0 := by
  intro n
  induction n with
  | zero => rfl
  | succ n ih =>
    rw [List.replicate_succ]
    rw [show writeTextsAux f H t.face t.font_size
        ((q, LayoutElement.text t) :: List.replicate n (q, LayoutElement.text t)) =
        Instr.matrix 1 0 0 1 q.x (H - q.y - t.font_size) ::
        Instr.showText (encodeGlyphsBe t.glyphs) ::
        writeTextsAux f H t.face t.font_size (List.replicate n (q, LayoutElement.text t))
      from by rw [writeTextsAux, if_neg (by simp)]]
    simp [countFontSel_cons, ih]

/-- The image pass of a page made only of replicated text elements is empty. -/
theorem writeImagesAux_replicate_text (i : Remapper Nat) (H : ℚ) (t : Shaped) (q : Pos) :
    ∀ n, writeImagesAux i H (List.replicate n (q, LayoutElement.text t)) = [] := by
  intro n
  induction n with
  | zero => rfl
  | succ n ih => rw [List.replicate_succ, writeImagesAux, ih]

/-- C4: counterexample. A page of two consecutive text elements with identical
`(face, font_size)` — namely the sentinel pair `(FaceId::MAX, 0)` — emits zero
font-selection instructions, not exactly one: the initial active-font state
already equals the pair, so no switch is issued. -/
theorem c4_font_switch_counterexample :
    countFontSel (writePage Remapper.new Remapper.new pageTwoSentinels) = 0 ∧
    ¬ countFontSel (writePage Remapper.new Remapper.new pageTwoSentinels) = 1 := by
  have h : countFontSel (writePage Remapper.new Remapper.new pageTwoSentinels) = 0 := rfl
  exact ⟨h, by rw [h]; decide⟩

/-- C4 as amended: provided the first text's `(face, font_size)` differs from
the active state at page start (the sentinel `(FaceId::MAX, 0)`), a page of two
consecutive text elements emits exactly one font-selection instruction when
their `(face, font_size)` agree and exactly two when they differ; and a run of
repetitions of one such text element emits exactly one selection, never
re-emitting it. -/
theorem c4_font_switch_amended (f i : Remapper Nat) (W H : ℚ) (t1 t2 : Shaped)
    (p1 p2 q : Pos) (n : Nat)
    (h : ¬(t1.face = faceIdMax ∧ t1.font_size = 0)) :
    countFontSel (writePage f i
        ⟨W, H, [(p1, LayoutElement.text t1), (p2, LayoutElement.text t2)]⟩) =
      (if t1.face = t2.face ∧ t1.font_size = t2.font_size then 1 else 2) ∧
    countFontSel (writePage f i
        ⟨W, H, List.replicate (n + 1) (q, LayoutElement.text t1)⟩) = 1 := by
  have hc1 : t1.face ≠ faceIdMax ∨ t1.font_size ≠ 0 := not_and_or.mp h
  constructor
  · rw [writePage]
    rw [countFontSel_append]
    show countFontSel (writeTextsAux f H faceIdMax 0
      [(p1, LayoutElement.text t1), (p2, LayoutElement.text t2)]) + countFontSel [] = _
    rw [writeTextsAux, if_pos hc1]
    by_cases heq : t1.face = t2.face ∧ t1.font_size = t2.font_size
    · have hne : ¬(t2.face ≠ t1.face ∨ t2.font_size ≠ t1.font_size) := by
        simp only [not_or, not_not]
        exact ⟨heq.1.symm, heq.2.symm⟩
      rw [if_pos heq]
      simp [countFontSel_cons, writeTextsAux, if_neg hne, countFontSel]
    · have hne : t2.face ≠ t1.face ∨ t2.font_size ≠ t1.font_size := by
        rcases not_and_or.mp heq with h' | h'
        · exact Or.inl (Ne.symm h')
        · exact Or.inr (Ne.symm h')
      rw [if_neg heq]
      simp [countFontSel_cons, writeTextsAux, if_pos hne, countFontSel]
  · rw [writePage]
    rw [countFontSel_append]
    show countFontSel (writeTextsAux f H faceIdMax 0
      (List.replicate (n + 1) (q, LayoutElement.text t1))) +
      countFontSel (writeImagesAux i H (List.replicate (n + 1) (q, LayoutElement.text t1))) = 1
    rw [writeImagesAux_replicate_text]
    rw [List.replicate_succ, writeTextsAux, if_pos hc1]
    rw [countFontSel_cons, countFontSel_cons, countFontSel_cons,
      countFontSel_replicate_same f H t1 q n]
    rfl

/-- Witness for C4 at concrete inputs: a pair in face 0 at size 12, and a run of
three repetitions. -/
theorem c4_font_switch_witness :
    countFontSel (writePage (Remapper.ofList [0]) Remapper.new
        ⟨100, 100, [(⟨0, 0⟩, LayoutElement.text ⟨0, 12, [1]⟩),
                    (⟨1, 1⟩, LayoutElement.text ⟨0, 12, [2]⟩)]⟩) =
      (if (Shaped.mk 0 12 [1]).face = (Shaped.mk 0 12 [2]).face ∧
          (Shaped.mk 0 12 [1]).font_size = (Shaped.mk 0 12 [2]).font_size
        then 1 else 2) ∧
    countFontSel (writePage (Remapper.ofList [0]) Remapper.new
        ⟨100, 100, List.replicate (2 + 1) (⟨0, 0⟩, LayoutElement.text ⟨0, 12, [1]⟩)⟩) = 1 :=
  c4_font_switch_amended (Remapper.ofList [0]) Remapper.new 100 100
    ⟨0, 12, [1]⟩ ⟨0, 12, [2]⟩ ⟨0, 0⟩ ⟨1, 1⟩ ⟨0, 0⟩ 2 (by decide)

/-- Inserting a key makes exactly that key (newly) present. -/
theorem Remapper.mem_insert_toLayout {α : Type} [DecidableEq α]
    (r : Remapper α) (k x : α) :
    x ∈ (r.insert k).to_layout ↔ x ∈ r.to_layout ∨ x = k := by
  unfold Remapper.insert
  by_cases h : k ∈ r.to_layout
  · rw [if_pos h]
    constructor
    · exact Or.inl
    · rintro (hx | rfl)
      · exact hx
      · exact h
  · rw [if_neg h]
    simp

/-- Keys present after a fold of insertions are the initial keys plus the
inserted ones. -/
theorem Remapper.mem_foldl_insert {α : Type} [DecidableEq α] :
    ∀ (ks : List α) (r : Remapper α) (x : α),
      x ∈ (ks.foldl Remapper.insert r).to_layout ↔ x ∈ r.to_layout ∨ x ∈ ks := by
  intro ks
  induction ks with
  | nil => intro r x; simp
  | cons a ks ih =>
    intro r x
    rw [List.foldl_cons, ih, Remapper.mem_insert_toLayout]
    simp
    tauto

/-- Inserting any further key does not move the index of an already-present
key. -/
theorem Remapper.map_insert_of_mem {α : Type} [DecidableEq α]
    (r : Remapper α) (x : α) (h : x ∈ r.to_layout) (k : α) :
    (r.insert k).map x = r.map x := by
  unfold Remapper.insert Remapper.map
  by_cases hk : k ∈ r.to_layout
  · rw [if_pos hk]
  · rw [if_neg hk]
    exact List.indexOf_append_of_mem h

/-- The vector built by a fold of insertions is the accumulator followed by the
first-occurrence deduplication of the not-yet-present keys. -/
theorem Remapper.toLayout_foldl {α : Type} [DecidableEq α] :
    ∀ (ks : List α) (acc : List α),
      (ks.foldl Remapper.insert ⟨acc⟩).to_layout =
        acc ++ firstDedup (ks.filter (fun x => x ∉ acc)) := by
  intro ks
  induction ks with
  | nil =>
    intro acc
    simp only [List.foldl_nil, List.filter_nil]
    rw [firstDedup]
    simp
  | cons a ks ih =>
    intro acc
    rw [List.foldl_cons]
    by_cases h : a ∈ acc
    · have hins : Remapper.insert ⟨acc⟩ a = ⟨acc⟩ := by
        unfold Remapper.insert; rw [if_pos h]
      rw [hins, ih]
      have hfil : (a :: ks).filter (fun x => x ∉ acc) = ks.filter (fun x => x ∉ acc) := by
        rw [List.filter_cons_of_neg (by simp [h])]
      rw [hfil]
    · have hins : Remapper.insert ⟨acc⟩ a = ⟨acc ++ [a]⟩ := by
        unfold Remapper.insert; rw [if_neg h]
      rw [hins, ih]
      have hfil : (a :: ks).filter (fun x => x ∉ acc) = a :: ks.filter (fun x => x ∉ acc) := by
        rw [List.filter_cons_of_pos (by simp [h])]
      rw [hfil, firstDedup]
      have hff : (ks.filter (fun x => x ∉ acc)).filter (fun x => x ≠ a) =
          ks.filter (fun x => x ∉ acc ++ [a]) := by
        rw [List.filter_filter]
        apply List.filter_congr
        intro x _
        simp [List.mem_append, not_or, and_comm]
      rw [hff, List.append_assoc, List.singleton_append]

/-- C5: the Remapper contract. For any insertion sequence `ks`: the index of an
inserted key lies in `[0, distinct_count)`; the index of an inserted key is
stable under any further insertion (so the same key always yields the same
index over the Remapper's lifetime); re-inserting a seen key leaves
`distinct_count` unchanged; and iterating pdf indices against keys yields
exactly the first-insertion enumeration. -/
theorem c5_remapper_contract {α : Type} [DecidableEq α] (ks : List α) :
    (∀ k, k ∈ ks → (Remapper.ofList ks).map k < (Remapper.ofList ks).len) ∧
    (∀ k, k ∈ ks → ∀ k', ((Remapper.ofList ks).insert k').map k = (Remapper.ofList ks).map k) ∧
    (∀ k, k ∈ ks → ((Remapper.ofList ks).insert k).len = (Remapper.ofList ks).len) ∧
    (Remapper.ofList ks).to_layout = firstDedup ks ∧
    (Remapper.ofList ks).pdf_indices.zip (Remapper.ofList ks).layout_indices =
      (firstDedup ks).enum := by
  have hmem : ∀ k, k ∈ ks ↔ k ∈ (Remapper.ofList ks).to_layout := by
    intro k
    rw [Remapper.ofList, Remapper.mem_foldl_insert]
    simp [Remapper.new]
  have hlayout : (Remapper.ofList ks).to_layout = firstDedup ks := by
    rw [Remapper.ofList]
    show (ks.foldl Remapper.insert ⟨[]⟩).to_layout = firstDedup ks
    rw [Remapper.toLayout_foldl ks []]
    simp
  refine ⟨?_, ?_, ?_, hlayout, ?_⟩
  · intro k hk
    rw [Remapper.map, Remapper.len]
    exact List.indexOf_lt_length.mpr ((hmem k).mp hk)
  · intro k hk k'
    exact Remapper.map_insert_of_mem _ _ ((hmem k).mp hk) k'
  · intro k hk
    have h : (Remapper.ofList ks).insert k = Remapper.ofList ks := by
      unfold Remapper.insert
      rw [if_pos ((hmem k).mp hk)]
    rw [h]
  · rw [Remapper.pdf_indices, Remapper.layout_indices, hlayout,
      ← List.enum_eq_zip_range]

/-- Witness for C5 at the concrete insertion sequence `[5, 3, 5]`. -/
theorem c5_remapper_contract_witness :
    (Remapper.ofList [5, 3, 5]).map 3 < (Remapper.ofList [5, 3, 5]).len ∧
    ((Remapper.ofList [5, 3, 5]).insert 9).map 3 = (Remapper.ofList [5, 3, 5]).map 3 ∧
    ((Remapper.ofList [5, 3, 5]).insert 5).len = (Remapper.ofList [5, 3, 5]).len ∧
    (Remapper.ofList [5, 3, 5]).pdf_indices.zip (Remapper.ofList [5, 3, 5]).layout_indices =
      (firstDedup [5, 3, 5]).enum :=
  ⟨(c5_remapper_contract [5, 3, 5]).1 3 (by decide),
   (c5_remapper_contract [5, 3, 5]).2.1 3 (by decide) 9,
   (c5_remapper_contract [5, 3, 5]).2.2.1 5 (by decide),
   (c5_remapper_contract [5, 3, 5]).2.2.2.2⟩

/-- C6: every text element at `(x, y)` on a page of height `H` and with font
size `s` is positioned by `matrix 1 0 0 1 x (H - y - s)` — the y-flip always
uses the element's own font size, whether or not a font switch is emitted —
and in scenario A (200-high page, text at (10, 10), size 12) the emitted
y-coordinate is `200 - 10 - 12 = 178`. -/
theorem c6_text_position_flip :
    (∀ (f : Remapper Nat) (H : ℚ) (face : Nat) (size : ℚ) (pos : Pos) (sh : Shaped)
        (rest : List (Pos × LayoutElement)),
      writeTextsAux f H face size ((pos, LayoutElement.text sh) :: rest) =
        (if sh.face ≠ face ∨ sh.font_size ≠ size
          then [Instr.font (f.map sh.face) sh.font_size] else []) ++
        Instr.matrix 1 0 0 1 pos.x (H - pos.y - sh.font_size) ::
        Instr.showText (encodeGlyphsBe sh.glyphs) ::
        writeTextsAux f H sh.face sh.font_size rest) ∧
    writePage (Remapper.ofList [0]) Remapper.new pageScenarioA =
      [Instr.font 0 12, Instr.matrix 1 0 0 1 10 178, Instr.showText [0, 1]] := by
  constructor
  · intro f H face size pos sh rest
    by_cases h : sh.face ≠ face ∨ sh.font_size ≠ size
    · simp only [writeTextsAux]
      rw [if_pos h, if_pos h]
      rfl
    · obtain ⟨h1, h2⟩ := not_or.mp h
      have hface : sh.face = face := not_not.mp h1
      have hsize : sh.font_size = size := not_not.mp h2
      simp only [writeTextsAux]
      rw [if_neg h, if_neg h, ← hface, ← hsize]
      rfl
  · norm_num [writePage, writeTextsAux, writeImagesAux, pageScenarioA, faceIdMax,
      encodeGlyphsBe, Remapper.ofList, Remapper.map, Remapper.new, Remapper.insert]

/-- The sequential mask counter of the image-writing loop equals, at each pair,
the starting counter plus the number of alpha-bearing images strictly before
that pair. -/
theorem writeImagesLoop_eq (env : Env) (refs : Refs) :
    ∀ (pairs : List (Nat × Nat)) (m : Nat),
      writeImagesLoop env refs m pairs =
        (pairs.zip (alphaPrefixCounts env pairs)).flatMap
          (fun q => imgSpec env refs (m + q.2) q.1) := by
  intro pairs
  induction pairs with
  | nil => intro m; rfl
  | cons p rest ih =>
    intro m
    rw [show alphaPrefixCounts env (p :: rest) =
        0 :: (alphaPrefixCounts env rest).map
          (· + if (env.resources p.2).hasAlpha then 1 else 0)
      from by rw [alphaPrefixCounts]]
    rw [List.zip_cons_cons, List.flatMap_cons, List.zip_map_right, List.flatMap_map]
    by_cases h : (env.resources p.2).hasAlpha
    · rw [show writeImagesLoop env refs m (p :: rest) =
          Obj.imageObj p.1 (env.resources p.2).width (env.resources p.2).height false
            (some (refs.alpha_mask m)) (env.resources p.2).rgb ::
          Obj.imageObj (refs.alpha_mask m) (env.resources p.2).width
            (env.resources p.2).height true none (env.resources p.2).alpha ::
          writeImagesLoop env refs (m + 1) rest
        from by rw [writeImagesLoop, if_pos h]]
      rw [ih (m + 1)]
      rw [show imgSpec env refs (m + 0) p =
          [Obj.imageObj p.1 (env.resources p.2).width (env.resources p.2).height false
            (some (refs.alpha_mask m)) (env.resources p.2).rgb,
           Obj.imageObj (refs.alpha_mask m) (env.resources p.2).width
            (env.resources p.2).height true none (env.resources p.2).alpha]
        from by rw [Nat.add_zero, imgSpec, if_pos h]]
      simp only [if_pos h, Function.comp]
      simp [Nat.add_comm, Nat.add_left_comm, Nat.add_assoc]
    · rw [show writeImagesLoop env refs m (p :: rest) =
          Obj.imageObj p.1 (env.resources p.2).width (env.resources p.2).height false
            none (env.resources p.2).rgb ::
          writeImagesLoop env refs m rest
        from by rw [writeImagesLoop, if_neg h]]
      rw [ih m]
      rw [show imgSpec env refs (m + 0) p =
          [Obj.imageObj p.1 (env.resources p.2).width (env.resources p.2).height false
            none (env.resources p.2).rgb]
        from by rw [Nat.add_zero, imgSpec, if_neg h]]
      simp only [if_neg h, Function.comp]
      simp

/-- C7: image embedding. In general, `write_images` hands the writer, per
distinct image in remapper order: exactly one color object and no mask when the
buffer reports no alpha; and exactly one color object plus one grayscale mask
object when it reports alpha, the mask id being `alpha_mask k` where `k` is the
image's position among the alpha-bearing images, that same id being the color
object's soft-mask reference. In scenario B (one opaque image, then one
alpha-bearing image) the trace is two color objects and one mask, and the
soft-mask reference of the transparent image equals `alpha_mask 0`. -/
theorem c7_image_embedding :
    (∀ (env : Env) (refs : Refs) (images : Remapper Nat),
      write_images env refs images =
        ((refs.images.zip images.layout_indices).zip
            (alphaPrefixCounts env (refs.images.zip images.layout_indices))).flatMap
          (fun q => imgSpec env refs q.2 q.1)) ∧
    write_images envB (PdfExporter.new layoutsB envB).refs
        (PdfExporter.new layoutsB envB).images =
      [Obj.imageObj 5 1 1 false none [4, 5, 6],
       Obj.imageObj 6 1 1 false (some 7) [1, 2, 3],
       Obj.imageObj 7 1 1 true none [9]] ∧
    (PdfExporter.new layoutsB envB).refs.alpha_mask 0 = 7 := by
  refine ⟨?_, ?_, ?_⟩
  · intro env refs images
    rw [write_images, writeImagesLoop_eq]
    simp
  · rfl
  · rfl

/-- Round-half-away-from-zero is monotone. -/
theorem roundTiesAway_mono {x y : ℚ} (h : x ≤ y) :
    roundTiesAway x ≤ roundTiesAway y := by
  unfold roundTiesAway
  by_cases hx : 0 ≤ x
  · rw [if_pos hx, if_pos (le_trans hx h)]
    exact Int.floor_le_floor (by linarith)
  · rw [if_neg hx]
    by_cases hy : 0 ≤ y
    · rw [if_pos hy]
      have h1 : (0 : ℤ) ≤ ⌊y + 1 / 2⌋ := Int.floor_nonneg.mpr (by linarith)
      have h2 : (0 : ℤ) ≤ ⌊-x + 1 / 2⌋ := Int.floor_nonneg.mpr (by linarith)
      omega
    · rw [if_neg hy]
      have hle : ⌊-y + 1 / 2⌋ ≤ ⌊-x + 1 / 2⌋ := Int.floor_le_floor (by linarith)
      omega

/-- C8: the font-unit conversion maps 0 to 0; it is monotone in the metric for
any fixed positive units-per-em (including the fallback 1000 when the face
reports none); and at exactly 1000 units per em it is the plain
round-half-away-from-zero. -/
theorem c8_convert_metrics :
    (∀ u : Option Nat, convert u 0 = 0) ∧
    (∀ (u : Option Nat) (v w : ℚ), 0 < u.getD 1000 → v ≤ w →
      convert u v ≤ convert u w) ∧
    (∀ v : ℚ, convert (some 1000) v = roundTiesAway v) := by
  refine ⟨?_, ?_, ?_⟩
  · intro u
    show roundTiesAway (1000 * (1 / ((u.getD 1000 : Nat) : ℚ)) * 0) = 0
    rw [mul_zero]
    norm_num [roundTiesAway]
  · intro u v w hu hvw
    show roundTiesAway (1000 * (1 / ((u.getD 1000 : Nat) : ℚ)) * v) ≤
      roundTiesAway (1000 * (1 / ((u.getD 1000 : Nat) : ℚ)) * w)
    apply roundTiesAway_mono
    have hpos : (0 : ℚ) < ((u.getD 1000 : Nat) : ℚ) := by exact_mod_cast hu
    have hc : (0 : ℚ) ≤ 1000 * (1 / ((u.getD 1000 : Nat) : ℚ)) := by positivity
    exact mul_le_mul_of_nonneg_left hvw hc
  · intro v
    show roundTiesAway (1000 * (1 / (((some 1000).getD 1000 : Nat) : ℚ)) * v) =
      roundTiesAway v
    norm_num

/-- Witness for C8 at concrete inputs. -/
theorem c8_convert_metrics_witness :
    convert (some 500) 0 = 0 ∧
    convert (some 500) 1 ≤ convert (some 500) 2 ∧
    convert (some 1000) (7 / 2) = roundTiesAway (7 / 2) :=
  ⟨c8_convert_metrics.1 (some 500),
   c8_convert_metrics.2.1 (some 500) 1 2 (by decide) (by decide),
   c8_convert_metrics.2.2 (7 / 2)⟩
